import Mathlib

/-!
# hydra: name validation, configuration store and the `init` decision logic

A shallow embedding of `src/hydra.go` and `config.go`.

Modelling conventions.
* A Go `string` is a Lean `String`, a sequence of Unicode code points: the
  model covers Go strings that hold valid UTF-8 text.
* The standard library is embedded as far as the program reaches it:
  `regexp.MatchString` for patterns that are alternations of literal
  sequences, `strings.ToUpper` / `strings.ToLower` rune by rune (the case
  tables above ASCII are a parameter), `bufio.Scanner` with its default line
  splitter and token limit, and `encoding/json` for the `Configuration`
  record.
* The file system is the one configuration file, `Option String`: absent or
  present with a content. Its operations succeed; failures of the operating
  system are outside the model.
-/

namespace Hydra

/-! ## `strings.ToUpper` and `strings.ToLower` -/

/-- Case mappings of Go's `unicode` package for runes above ASCII. The tables
are data of the standard library, so the model takes them as a parameter. -/
structure CaseTables where
  /-- The upper-case mapping above ASCII. -/
  upper : Char → Char
  /-- The lower-case mapping above ASCII. -/
  lower : Char → Char

/-- Go's `unicode.ToUpper`: ASCII letters are shifted, other ASCII runes are
kept, and runes above ASCII go through the case table. -/
def toUpperRune (t : CaseTables) (r : Char) : Char :=
  if r.toNat ≤ 127 then
    if 97 ≤ r.toNat ∧ r.toNat ≤ 122 then Char.ofNat (r.toNat - 32) else r
  else t.upper r

/-- Go's `unicode.ToLower`. -/
def toLowerRune (t : CaseTables) (r : Char) : Char :=
  if r.toNat ≤ 127 then
    if 65 ≤ r.toNat ∧ r.toNat ≤ 90 then Char.ofNat (r.toNat + 32) else r
  else t.lower r

/-- Go's `strings.ToUpper`: every rune is mapped by `unicode.ToUpper`. -/
def ToUpper (t : CaseTables) (s : String) : String :=
  ⟨s.data.map (toUpperRune t)⟩

/-- Go's `strings.ToLower`: every rune is mapped by `unicode.ToLower`. -/
def ToLower (t : CaseTables) (s : String) : String :=
  ⟨s.data.map (toLowerRune t)⟩

/-- A case table that leaves every rune above ASCII as it is. It serves the
evaluations on ASCII inputs, where the tables are never consulted. -/
def asciiTables : CaseTables := ⟨id, id⟩

/-! ## `regexp.MatchString` on alternations of literals -/

/-- The test `isalnum` of Go's `regexp/syntax`. -/
def isalnum (c : Char) : Bool :=
  (48 ≤ c.toNat && c.toNat ≤ 57) || (65 ≤ c.toNat && c.toNat ≤ 90) ||
    (97 ≤ c.toNat && c.toNat ≤ 122)

/-- The characters that are operators of the pattern language when they are
not escaped: `( ) [ ] { } . * + ? ^ $`. -/
def isOperator (c : Char) : Bool :=
  c ∈ ['(', ')', '[', ']', '\x7b', '\x7d', '.', '*', '+', '?', '^', '$']

/-- Puts a literal in front of the first alternative. -/
def consLiteral (c : Char) : List (List Char) → List (List Char)
  | [] => [[c]]
  | a :: rest => (c :: a) :: rest

/-- The parser of `regexp/syntax`, for patterns built from literals, escaped
punctuation and `|`: the result is the list of alternatives, each a sequence
of literal characters. A backslash before an ASCII character that is not
alphanumeric stands for that character. Other patterns (operators, classes,
a trailing backslash) are outside this fragment and give `none`. -/
def parsePattern : List Char → Option (List (List Char))
  | [] => some [[]]
  | c :: rest =>
    if c = '\\' then
      match rest with
      | [] => none
      | e :: rest2 =>
        if e.toNat < 128 ∧ isalnum e = false then (parsePattern rest2).map (consLiteral e)
        else none
    else if c = '|' then (parsePattern rest).map (fun alts => [] :: alts)
    else if isOperator c then none
    else (parsePattern rest).map (consLiteral c)

/-- Does one of the alternatives start the text? -/
def matchHere (alts : List (List Char)) (text : List Char) : Bool :=
  alts.any (fun a => a.isPrefixOf text)

/-- Unanchored search: does an alternative match at some position of the text? -/
def matchAnywhere (alts : List (List Char)) : List Char → Bool
  | [] => matchHere alts []
  | c :: rest => matchHere alts (c :: rest) || matchAnywhere alts rest

/-- Go's `regexp.MatchString pattern s`: the match flag and whether the
pattern compiled. A pattern that does not compile reports no match. -/
def MatchString (pattern : String) (s : String) : Bool × Bool :=
  match parsePattern pattern.data with
  | none => (false, false)
  | some alts => (matchAnywhere alts s.data, true)

/-- The pattern of `wrongProjectName`, the raw string literal of the source. -/
def namePattern : String :=
  "\\.|\\?|\\*|\\:|\\,|\\'|\\\"|\\||\\|\\|/<|>"

/-- The function `wrongProjectName` of `hydra.go`: the match flag of the
pattern on the project name, the error of `MatchString` being dropped. -/
def wrongProjectName (projectName : String) : Bool :=
  (MatchString namePattern projectName).1

/-! ## The `init` action of `hydra.go` -/

/-- The record `Configuration` of `config.go`. -/
structure Configuration where
  /-- The user's full name. -/
  FullName : String
  /-- The user's GitHub username. -/
  GithubUsername : String
  /-- The default language of `init`. -/
  DefaultLang : String
  /-- The default license of `init`. -/
  DefaultLicense : String
  deriving DecidableEq, Repr

/-- The variable `supportedLangs` of `hydra.go`. -/
def supportedLangs : List String :=
  ["go", "python", "web", "flask", "ruby", "c", "c++"]

/-- The variable `supportedLicenses` of `hydra.go`: a map from the license
code to its full name, held as the list of its entries. -/
def supportedLicenses : List (String × String) :=
  [("APACHE", "Apache License"),
   ("BSD", "Berkeley Software Distribution 3-Clause"),
   ("EPL", "Eclipse Public License"),
   ("GPL", "GNU General Public License v3"),
   ("MIT", "Massachusetts Institute of Technology License"),
   ("MPL", "Mozilla Public License"),
   ("UNI", "The Unilicense")]

/-- The keys of `supportedLicenses`, the codes reported as supported. -/
def licenseCodes : List String := supportedLicenses.map Prod.fst

/-- The function `stringInSlice` of `hydra.go`. -/
def stringInSlice (s : String) : List String → Bool
  | [] => false
  | v :: rest => if v = s then true else stringInSlice s rest

/-- The slice literal the `init` action checks the license against. -/
def initLicenses : List String :=
  ["MIT", "BSD", "MPL", "EPL", "GPL", "APACHE", "UNI"]

/-- Modelled from the spec: `getConfig` is called by the `init` action and is
not among the source files. The spec describes it as the accessor that
fetches a single field of the stored record and fails the caller's operation
when the field name is unrecognized. -/
def getConfig (cfg : Configuration) (field : String) : Option String :=
  if field = "fullName" then some cfg.FullName
  else if field = "githubUsername" then some cfg.GithubUsername
  else if field = "defaultLang" then some cfg.DefaultLang
  else if field = "defaultLicense" then some cfg.DefaultLicense
  else none

/-- Modelled from the spec: `checkForCorrectConfig` is called by the `init`
action and is not among the source files. The spec describes it as true iff
both the full name and the GitHub username are non-empty. -/
def checkForCorrectConfig (cfg : Configuration) : Bool :=
  !(cfg.FullName = "") && !(cfg.GithubUsername = "")

/-- The struct `Initializer` as the `init` action builds it. -/
structure Initializer where
  /-- The name of the project. -/
  projectName : String
  /-- The license code. -/
  license : String
  /-- The language. -/
  lang : String
  deriving DecidableEq, Repr

/-- The scaffolding routines the `init` action can call. -/
inductive Routine where
  | pythonInit
  | goInit
  | webInit
  | flaskInit
  | cInit
  | cppInit
  | rubyInit
  deriving DecidableEq, Repr

/-- The ways the `init` action ends. -/
inductive Outcome where
  /-- The configuration is not set: the first `return`. -/
  | notConfigured
  /-- The invalid-license message, with the license it prints. -/
  | invalidLicense (license : String)
  /-- The invalid-name message, with the name it prints. -/
  | invalidName (projectName : String)
  /-- One scaffolding routine is called on the initializer. -/
  | scaffold (routine : Routine) (init : Initializer)
  /-- The `default` branch of the switch: the unsupported-language message. -/
  | unsupportedLanguage (projectLang : String)
  /-- The accessor `getConfig` failed. -/
  | fatal
  deriving DecidableEq, Repr

/-- The action of the `init` command in `hydra.go`, on the values the closure
reads: the stored record, `args["name"]`, `args["lang"]` and
`flags["license"]`. -/
def initAction (t : CaseTables) (cfg : Configuration)
    (name lang licenseFlag : String) : Outcome :=
  if checkForCorrectConfig cfg = false then Outcome.notConfigured
  else
    let license := ToUpper t licenseFlag
    match (if license = "DEFAULT" then getConfig cfg "defaultLicense" else some license) with
    | none => Outcome.fatal
    | some license =>
      if stringInSlice license initLicenses = false then Outcome.invalidLicense license
      else
        let projectLang := ToLower t lang
        match (if projectLang = "default" then getConfig cfg "defaultLang"
               else some projectLang) with
        | none => Outcome.fatal
        | some projectLang =>
          let projectName := name
          if wrongProjectName projectName then Outcome.invalidName projectName
          else
            let init : Initializer := ⟨projectName, license, projectLang⟩
            if projectLang = "python" then Outcome.scaffold Routine.pythonInit init
            else if projectLang = "go" then Outcome.scaffold Routine.goInit init
            else if projectLang = "web" then Outcome.scaffold Routine.webInit init
            else if projectLang = "flask" then Outcome.scaffold Routine.flaskInit init
            else if projectLang = "c" then Outcome.scaffold Routine.cInit init
            else if projectLang = "c++" then Outcome.scaffold Routine.cppInit init
            else if projectLang = "ruby" then Outcome.scaffold Routine.rubyInit init
            else Outcome.unsupportedLanguage projectLang

/-- The value the command-line front end hands to an action for a flag or an
argument that is registered with a default: the declared default when the
flag or argument is omitted and also when it is supplied with an empty value,
and the supplied value otherwise. -/
def valueOrDefault (supplied : Option String) (declared : String) : String :=
  match supplied with
  | none => declared
  | some v => if v = "" then declared else v

/-- The `init` command as registered: the argument `lang` and the flag
`license` are registered with the default `"default"`. -/
def initCommand (t : CaseTables) (cfg : Configuration) (name : String)
    (lang license : Option String) : Outcome :=
  initAction t cfg name (valueOrDefault lang "default") (valueOrDefault license "default")

/-- The language a scaffolding routine is written for: the `case` label that
selects it. -/
def Routine.language : Routine → String
  | Routine.pythonInit => "python"
  | Routine.goInit => "go"
  | Routine.webInit => "web"
  | Routine.flaskInit => "flask"
  | Routine.cInit => "c"
  | Routine.cppInit => "c++"
  | Routine.rubyInit => "ruby"

/-- Did the action get past its license check? -/
def Outcome.passedLicense : Outcome → Bool
  | Outcome.invalidName _ => true
  | Outcome.scaffold _ _ => true
  | Outcome.unsupportedLanguage _ => true
  | _ => false

/-- The license the action validates: the stored default when the upper-cased
flag is `DEFAULT`, and the upper-cased flag otherwise. -/
def resolvedLicense (t : CaseTables) (cfg : Configuration) (licenseFlag : String) : String :=
  if ToUpper t licenseFlag = "DEFAULT" then cfg.DefaultLicense else ToUpper t licenseFlag

/-- The language the action dispatches on: the stored default when the
lower-cased argument is `default`, and the lower-cased argument otherwise. -/
def resolvedLang (t : CaseTables) (cfg : Configuration) (lang : String) : String :=
  if ToLower t lang = "default" then cfg.DefaultLang else ToLower t lang

/-! ## `encoding/json` for the `Configuration` record: `json.Marshal` -/

/-- The table `hex` of `encoding/json`. -/
def hexDigit (n : Nat) : Char :=
  "0123456789abcdef".data.getD n '0'

/-- The table `htmlSafeSet` of `encoding/json`: the ASCII characters the
encoder copies as they are, from the space to DEL without the double quote,
the ampersand, the angle brackets and the backslash. -/
def htmlSafe (c : Char) : Bool :=
  32 ≤ c.toNat && c.toNat ≤ 127 &&
    !(c = '"' || c = '&' || c = '<' || c = '>' || c = '\\')

/-- What the string encoder of `json.Marshal` writes for one rune, with the
HTML escaping that `json.Marshal` switches on: the characters of
`htmlSafeSet` as they are, the backslash and the double quote behind a
backslash, newline, carriage return and tab as `\n`, `\r`, `\t`, the other
ASCII characters (control characters, `&`, `<`, `>`) as `\u00` and two
hexadecimal digits, U+2028 and U+2029 as `\u2028` and `\u2029`, and every other
rune as it is. -/
def encodeRune (c : Char) : List Char :=
  if c.toNat < 128 then
    if htmlSafe c then [c]
    else if c = '\\' ∨ c = '"' then ['\\', c]
    else if c = '\n' then ['\\', 'n']
    else if c = '\r' then ['\\', 'r']
    else if c = '\t' then ['\\', 't']
    else ['\\', 'u', '0', '0', hexDigit (c.toNat / 16), hexDigit (c.toNat % 16)]
  else if c.toNat = 8232 ∨ c.toNat = 8233 then
    ['\\', 'u', '2', '0', '2', hexDigit (c.toNat % 16)]
  else [c]

/-- The JSON string literal `json.Marshal` writes for a Go string. -/
def encodeString (s : String) : List Char :=
  '"' :: (s.data.flatMap encodeRune ++ ['"'])

/-- The function `jsonify` of `config.go`: `json.Marshal` of the record, an
object with the four fields in the order of the struct. Marshalling this
struct has no error case. -/
def jsonify (config : Configuration) : String :=
  ⟨"\x7b\"FullName\":".data ++ encodeString config.FullName ++
    ",\"GithubUsername\":".data ++ encodeString config.GithubUsername ++
    ",\"DefaultLang\":".data ++ encodeString config.DefaultLang ++
    ",\"DefaultLicense\":".data ++ encodeString config.DefaultLicense ++ "\x7d".data⟩

/-! ## `encoding/json` for the `Configuration` record: `json.Unmarshal` -/

/-- JSON white space. -/
def isSpace (c : Char) : Bool :=
  c = ' ' || c = '\t' || c = '\r' || c = '\n'

/-- Drops leading white space. -/
def skipSpace : List Char → List Char
  | [] => []
  | c :: rest => if isSpace c then skipSpace rest else c :: rest

/-- The value of a hexadecimal digit. -/
def hexValue (c : Char) : Option Nat :=
  if 48 ≤ c.toNat ∧ c.toNat ≤ 57 then some (c.toNat - 48)
  else if 97 ≤ c.toNat ∧ c.toNat ≤ 102 then some (c.toNat - 87)
  else if 65 ≤ c.toNat ∧ c.toNat ≤ 70 then some (c.toNat - 55)
  else none

/-- The function `getu4` of `encoding/json` on the four digits after the
characters of a Unicode escape. -/
def getu4 (a b c d : Char) : Option Nat :=
  match hexValue a, hexValue b, hexValue c, hexValue d with
  | some x, some y, some z, some w => some (((x * 16 + y) * 16 + z) * 16 + w)
  | _, _, _, _ => none

/-- The character of a one-letter escape. -/
def unescape (e : Char) : Option Char :=
  if e = '"' then some '"'
  else if e = '\\' then some '\\'
  else if e = '/' then some '/'
  else if e = 'b' then some (Char.ofNat 8)
  else if e = 'f' then some (Char.ofNat 12)
  else if e = 'n' then some '\n'
  else if e = 'r' then some '\r'
  else if e = 't' then some '\t'
  else none

/-- The replacement for a high surrogate whose partner did not follow. -/
def flushPending (pending : Option Nat) : List Char :=
  match pending with
  | some _ => [Char.ofNat 65533]
  | none => []

/-- Puts decoded characters in front of the content of a parsed literal. -/
def prepend (cs : List Char) (p : List Char × List Char) : List Char × List Char :=
  (cs ++ p.1, p.2)

/-- A JSON string literal after its opening quote: the decoded content and
the text after the closing quote, or `none` for a syntax error (the text
ends, a control character, or a bad escape). It joins the scanner's check and
the function `unquote` of `encoding/json`: a Unicode escape outside the
surrogate range gives its rune, the escape of a high surrogate directly
followed by the escape of a low surrogate gives the rune of the pair, and a
surrogate without its partner gives U+FFFD. The argument `pending` is the
high surrogate that was just read and waits for its partner. -/
def parseString (pending : Option Nat) : List Char → Option (List Char × List Char)
  | [] => none
  | c :: rest =>
    if c = '"' then some (flushPending pending, rest)
    else if c = '\\' then
      match rest with
      | [] => none
      | e :: rest1 =>
        if e = 'u' then
          match rest1 with
          | h1 :: h2 :: h3 :: h4 :: rest2 =>
            match getu4 h1 h2 h3 h4 with
            | none => none
            | some n =>
              if 55296 ≤ n ∧ n < 56320 then
                (parseString (some n) rest2).map (prepend (flushPending pending))
              else if 56320 ≤ n ∧ n < 57344 then
                match pending with
                | some hi =>
                  (parseString none rest2).map
                    (prepend [Char.ofNat (65536 + (hi - 55296) * 1024 + (n - 56320))])
                | none => (parseString none rest2).map (prepend [Char.ofNat 65533])
              else (parseString none rest2).map (prepend (flushPending pending ++ [Char.ofNat n]))
          | _ => none
        else
          match unescape e with
          | none => none
          | some r => (parseString none rest1).map (prepend (flushPending pending ++ [r]))
    else if c.toNat < 32 then none
    else (parseString none rest).map (prepend (flushPending pending ++ [c]))

/-- A decimal digit. -/
def isDigit (c : Char) : Bool :=
  48 ≤ c.toNat && c.toNat ≤ 57

/-- Drops leading digits. -/
def skipDigits : List Char → List Char
  | [] => []
  | c :: rest => if isDigit c then skipDigits rest else c :: rest

/-- The exponent part of a JSON number, if there is one. -/
def scanExponent : List Char → Option (List Char)
  | [] => some []
  | e :: rest =>
    if e = 'e' ∨ e = 'E' then
      match rest with
      | [] => none
      | s :: rest1 =>
        if s = '+' ∨ s = '-' then
          match rest1 with
          | [] => none
          | d :: rest2 => if isDigit d then some (skipDigits rest2) else none
        else if isDigit s then some (skipDigits rest1)
        else none
    else some (e :: rest)

/-- The fraction and exponent parts of a JSON number, if there are any. -/
def scanFraction : List Char → Option (List Char)
  | [] => some []
  | p :: rest =>
    if p = '.' then
      match rest with
      | [] => none
      | d :: rest1 => if isDigit d then scanExponent (skipDigits rest1) else none
    else scanExponent (p :: rest)

/-- The digits of a JSON number after its sign. -/
def scanDigits : List Char → Option (List Char)
  | [] => none
  | d :: rest =>
    if d = '0' then scanFraction rest
    else if isDigit d then scanFraction (skipDigits rest)
    else none

/-- A JSON number: the text after it. -/
def scanNumber : List Char → Option (List Char)
  | [] => none
  | c :: rest => if c = '-' then scanDigits rest else scanDigits (c :: rest)

/-- What the syntax check is reading. -/
inductive Mode where
  /-- One value. -/
  | value
  /-- The elements of an array, after the bracket or a comma. -/
  | elements
  /-- The members of an object, after the brace or a comma. -/
  | members
  deriving DecidableEq, Repr

/-- The syntax check of `encoding/json` (`checkValid`) for one value, for the
rest of an array or for the rest of an object: the text after it, or `none`
for a syntax error. The fuel bounds the number of calls. -/
def skipJson : Nat → Mode → List Char → Option (List Char)
  | 0, _, _ => none
  | fuel + 1, Mode.value, cs =>
    match skipSpace cs with
    | [] => none
    | c :: rest =>
      if c = '\x7b' then
        match skipSpace rest with
        | [] => none
        | d :: rest1 => if d = '\x7d' then some rest1 else skipJson fuel Mode.members (d :: rest1)
      else if c = '[' then
        match skipSpace rest with
        | [] => none
        | d :: rest1 => if d = ']' then some rest1 else skipJson fuel Mode.elements (d :: rest1)
      else if c = '"' then (parseString none rest).map Prod.snd
      else if c = 't' then
        match rest with
        | 'r' :: 'u' :: 'e' :: rest1 => some rest1
        | _ => none
      else if c = 'f' then
        match rest with
        | 'a' :: 'l' :: 's' :: 'e' :: rest1 => some rest1
        | _ => none
      else if c = 'n' then
        match rest with
        | 'u' :: 'l' :: 'l' :: rest1 => some rest1
        | _ => none
      else scanNumber (c :: rest)
  | fuel + 1, Mode.elements, cs =>
    match skipJson fuel Mode.value cs with
    | none => none
    | some rest =>
      match skipSpace rest with
      | [] => none
      | c :: rest1 =>
        if c = ',' then skipJson fuel Mode.elements rest1
        else if c = ']' then some rest1
        else none
  | fuel + 1, Mode.members, cs =>
    match skipSpace cs with
    | [] => none
    | q :: rest =>
      if q = '"' then
        match parseString none rest with
        | none => none
        | some (_, rest1) =>
          match skipSpace rest1 with
          | [] => none
          | c :: rest2 =>
            if c = ':' then
              match skipJson fuel Mode.value rest2 with
              | none => none
              | some rest3 =>
                match skipSpace rest3 with
                | [] => none
                | e :: rest4 =>
                  if e = ',' then skipJson fuel Mode.members rest4
                  else if e = '\x7d' then some rest4
                  else none
            else none
      else none

/-- The names of the fields of `Configuration`, as their `json` tags give
them, in the order of the struct. -/
def fieldNames : List String :=
  ["FullName", "GithubUsername", "DefaultLang", "DefaultLicense"]

/-- The byte operation `b & caseMask` of `encoding/json` on an ASCII
character: the bit that tells the two cases of a letter apart is cleared. -/
def caseMasked (c : Char) : Nat :=
  if c.toNat / 32 % 2 = 1 then c.toNat - 32 else c.toNat

/-- Case folding of one character of a field name against one character of a
key, as the fold functions of `encoding/json` do it for the ASCII names of
this record: an ASCII letter equals itself in both cases, `s` also equals
U+017F and `k` also equals U+212A, and any other character equals only itself. -/
def foldEq (n k : Char) : Bool :=
  if k.toNat < 128 then
    n = k || (65 ≤ caseMasked n && caseMasked n ≤ 90 && caseMasked n = caseMasked k)
  else
    ((n = 's' || n = 'S') && k.toNat = 383) || ((n = 'k' || n = 'K') && k.toNat = 8490)

/-- Case-insensitive comparison of a field name with a key. -/
def equalFold : List Char → List Char → Bool
  | [], [] => true
  | n :: name, k :: key => foldEq n k && equalFold name key
  | _, _ => false

/-- The field a key of the object selects: the field whose name is the key,
and otherwise the first field whose name equals the key up to case. -/
def findField (key : List Char) : Option Nat :=
  match fieldNames.indexOf? ⟨key⟩ with
  | some i => some i
  | none => (fieldNames.map (fun name => equalFold name.data key)).indexOf? true

/-- Stores a string in the field with the given index. -/
def setField (config : Configuration) (i : Nat) (v : String) : Configuration :=
  match i with
  | 0 => { config with FullName := v }
  | 1 => { config with GithubUsername := v }
  | 2 => { config with DefaultLang := v }
  | _ => { config with DefaultLicense := v }

/-- The value of one member of the object, the text starting at the value:
the record after the member, whether the types fitted so far, and the text
after the value; `none` for a syntax error. A string is stored in the field
the key selects, `null` leaves the field, and any other value for a field of
the record is a type error, which `json.Unmarshal` reports after it has read
the whole text. The value of a key that selects no field is skipped. -/
def decodeValue (config : Configuration) (fits : Bool) (key : List Char)
    (v : List Char) : Option (Configuration × Bool × List Char) :=
  match findField key with
  | none => (skipJson (2 * v.length + 2) Mode.value v).map (fun rest => (config, fits, rest))
  | some i =>
    match v with
    | '"' :: rest =>
      (parseString none rest).map (fun p => (setField config i ⟨p.1⟩, fits, p.2))
    | 'n' :: 'u' :: 'l' :: 'l' :: rest => some (config, fits, rest)
    | _ => (skipJson (2 * v.length + 2) Mode.value v).map (fun rest => (config, false, rest))

/-- The members of the object, the text starting at a key: the record, whether
the types fitted, and the text after the closing brace. -/
def decodeMembers : Nat → Configuration → Bool → List Char →
    Option (Configuration × Bool × List Char)
  | 0, _, _, _ => none
  | fuel + 1, config, fits, cs =>
    match skipSpace cs with
    | [] => none
    | q :: rest =>
      if q = '"' then
        match parseString none rest with
        | none => none
        | some (key, rest1) =>
          match skipSpace rest1 with
          | [] => none
          | c :: rest2 =>
            if c = ':' then
              match decodeValue config fits key (skipSpace rest2) with
              | none => none
              | some (config1, fits1, rest3) =>
                match skipSpace rest3 with
                | [] => none
                | e :: rest4 =>
                  if e = ',' then decodeMembers fuel config1 fits1 rest4
                  else if e = '\x7d' then some (config1, fits1, rest4)
                  else none
            else none
      else none

/-- Go's `json.Unmarshal` into a pointer to `Configuration` that is nil
before the call: `none` for an error (of syntax or of type), and otherwise
the pointer after the call, nil for the text `null` and a fresh record with
the fields of the object for an object. -/
def Unmarshal (data : String) : Option (Option Configuration) :=
  match skipSpace data.data with
  | 'n' :: 'u' :: 'l' :: 'l' :: rest => if skipSpace rest = [] then some none else none
  | '\x7b' :: rest =>
    match skipSpace rest with
    | '\x7d' :: rest1 => if skipSpace rest1 = [] then some (some ⟨"", "", "", ""⟩) else none
    | members =>
      match decodeMembers (members.length + 1) ⟨"", "", "", ""⟩ true members with
      | some (config, true, rest1) => if skipSpace rest1 = [] then some (some config) else none
      | _ => none
  | _ => none

/-- The result of running a function that can panic. -/
inductive Run (α : Type) where
  /-- The function returned. -/
  | returned (a : α)
  /-- The function panicked. -/
  | panicked
  deriving DecidableEq, Repr

/-- The function `readJson` of `config.go`: it panics when `json.Unmarshal`
reports an error and returns the pointer otherwise (`none` is the nil
pointer). -/
def readJson (jsonString : String) : Run (Option Configuration) :=
  match Unmarshal jsonString with
  | none => Run.panicked
  | some result => Run.returned result

/-! ## `bufio.Scanner` with the line splitter -/

/-- The constant `bufio.MaxScanTokenSize`. -/
def MaxScanTokenSize : Nat := 64 * 1024

/-- The number of bytes of a text in UTF-8. -/
def byteLength (cs : List Char) : Nat :=
  (cs.map Char.utf8Size).sum

/-- The text cut at every newline. -/
def splitLines : List Char → List (List Char)
  | [] => [[]]
  | c :: rest =>
    if c = '\n' then [] :: splitLines rest
    else
      match splitLines rest with
      | [] => [[c]]
      | line :: lines => (c :: line) :: lines

/-- The function `dropCR` of `bufio`: a carriage return at the end of a line
is dropped. -/
def dropCR (line : List Char) : List Char :=
  if line.getLast? = some '\r' then line.dropLast else line

/-- The tokens a `bufio.Scanner` with `ScanLines` delivers for a file: the
lines without their end-of-line marker, no token for the empty rest after the
last newline, and nothing from the first line on that does not fit the buffer
of `MaxScanTokenSize` bytes (`Scan` then returns false with `ErrTooLong`). -/
def scanLines (data : List Char) : List (List Char) :=
  let lines := splitLines data
  let lines := if lines.getLast? = some [] then lines.dropLast else lines
  (lines.takeWhile (fun line => byteLength line < MaxScanTokenSize)).map dropCR

/-! ## The function `config` and the `config` command -/

/-- The function `config` of `config.go`, on the state of the configuration
file (`none`: the file does not exist): whether it returned or panicked, and
the state of the file afterwards. -/
def config (fullName githubUsername defaultLang defaultLicense : String)
    (file : Option String) : Run Unit × Option String :=
  let content : String :=
    match file with
    | none => jsonify ⟨"", "", "", "MIT"⟩
    | some content => content
  let wholeText : String := ⟨(scanLines content.data).flatten⟩
  match readJson wholeText with
  | Run.panicked => (Run.panicked, some content)
  | Run.returned none => (Run.panicked, some content)
  | Run.returned (some configStruct) =>
    let configStruct := { configStruct with FullName := fullName }
    let configStruct := { configStruct with GithubUsername := githubUsername }
    let configStruct := { configStruct with DefaultLang := defaultLang }
    let configStruct := { configStruct with DefaultLicense := defaultLicense }
    (Run.returned (), some (jsonify configStruct))

/-- The characters whose presence the pattern detects. -/
def blockedCharacters : List Char :=
  ['.', '?', '*', ':', ',', '\'', '"', '|', '>']

/-- A character of a plain name: an ASCII letter, a digit, a hyphen or an underscore. -/
def isPlain (c : Char) : Bool :=
  isalnum c || c = '-' || c = '_'

/-- The switch of the `init` action, on the initializer it was given. -/
def dispatch (init : Initializer) : Outcome :=
  if init.lang = "python" then Outcome.scaffold Routine.pythonInit init
  else if init.lang = "go" then Outcome.scaffold Routine.goInit init
  else if init.lang = "web" then Outcome.scaffold Routine.webInit init
  else if init.lang = "flask" then Outcome.scaffold Routine.flaskInit init
  else if init.lang = "c" then Outcome.scaffold Routine.cInit init
  else if init.lang = "c++" then Outcome.scaffold Routine.cppInit init
  else if init.lang = "ruby" then Outcome.scaffold Routine.rubyInit init
  else Outcome.unsupportedLanguage init.lang

/-- Is the first text a variant of the second in the case of its letters: the
same length, and at every position the same character or the one 32 above
(the lower-case form of an upper-case ASCII letter)? -/
def caseVariant : List Char → List Char → Bool
  | [], [] => true
  | a :: s, b :: m => (a = b || a.toNat = b.toNat + 32) && caseVariant s m
  | _, _ => false

/-- The text of one member as `json.Marshal` writes it: the key, the colon and
the string. -/
def memberText (name : String) (v : String) : List Char :=
  '"' :: (name.data ++ '"' :: ':' :: encodeString v)

/-- A name of 65,536 letters. -/
def longName : String := ⟨List.replicate 65536 'a'⟩

/-! ## Properties -/

theorem parsePattern_namePattern :
    parsePattern namePattern.data =
      some [['.'], ['?'], ['*'], [':'], [','], ['\''], ['"'], ['|'], ['|', '|', '/', '<'], ['>']] := by
  decide

theorem beq_char_comm (a c : Char) : (a == c) = decide (c = a) := by
  by_cases h : c = a
  · subst h; simp
  · have h2 : ¬ a = c := fun e => h e.symm
    simp [h, h2]

theorem matchHere_cons (c : Char) (rest : List Char) :
    matchHere [['.'], ['?'], ['*'], [':'], [','], ['\''], ['"'], ['|'], ['|', '|', '/', '<'], ['>']]
      (c :: rest) = decide (c ∈ blockedCharacters) := by
  simp only [matchHere, blockedCharacters, List.any_cons, List.any_nil, List.isPrefixOf, Bool.or_false,
    Bool.and_true, List.mem_cons, List.mem_singleton, List.not_mem_nil, or_false, beq_char_comm]
  by_cases h : c = '|'
  · subst h; simp
  · simp [h]

theorem matchAnywhere_eq (s : List Char) :
    matchAnywhere [['.'], ['?'], ['*'], [':'], [','], ['\''], ['"'], ['|'], ['|', '|', '/', '<'], ['>']] s
      = s.any (fun c => decide (c ∈ blockedCharacters)) := by
  induction s with
  | nil => decide
  | cons c rest ih => rw [matchAnywhere, matchHere_cons, ih, List.any_cons]

/-- The function `wrongProjectName` is true exactly on the names that hold one
of the characters `. ? * : , ' " | >`. -/
theorem wrongProjectName_iff (name : String) :
    wrongProjectName name = true ↔ ∃ c ∈ name.data, c ∈ blockedCharacters := by
  unfold wrongProjectName MatchString
  rw [parsePattern_namePattern]
  simp only [matchAnywhere_eq, List.any_eq_true, decide_eq_true_eq]

theorem wrongProjectName_eq_false_iff (name : String) :
    wrongProjectName name = false ↔ ∀ c ∈ name.data, c ∉ blockedCharacters := by
  rw [← Bool.not_eq_true, wrongProjectName_iff]
  push_neg
  rfl

/-- C1 (the code at the failing input): the name `a<b` holds the character `<`,
one of the ten the claim lists, and `wrongProjectName` returns false on it.
The pattern has `<` only at the end of the alternative `\|\|/<`, so the
character alone is not matched. -/
theorem wrongProjectName_misses_less_than :
    '<' ∈ "a<b".data ∧ wrongProjectName "a<b" = false := by
  decide

/-- C10: for every project name made only of ASCII letters, digits, hyphens
and underscores, the empty name included, `wrongProjectName` returns false. -/
theorem wrongProjectName_plain (name : String) (h : ∀ c ∈ name.data, isPlain c = true) :
    wrongProjectName name = false := by
  rw [wrongProjectName_eq_false_iff]
  intro c hc hb
  have hp := h c hc
  simp only [blockedCharacters, List.mem_cons, List.mem_singleton, List.not_mem_nil, or_false] at hb
  rcases hb with rfl | rfl | rfl | rfl | rfl | rfl | rfl | rfl | rfl <;> exact absurd hp (by decide)

/-- Witness of C10: the names `my-App_2` and the empty name. -/
theorem wrongProjectName_plain_witness :
    (∀ c ∈ "my-App_2".data, isPlain c = true) ∧ wrongProjectName "my-App_2" = false ∧
      wrongProjectName "" = false :=
  ⟨by decide, wrongProjectName_plain "my-App_2" (by decide), wrongProjectName_plain "" (by decide)⟩

theorem stringInSlice_iff (s : String) (slice : List String) :
    stringInSlice s slice = true ↔ s ∈ slice := by
  induction slice with
  | nil => simp [stringInSlice]
  | cons v rest ih =>
    unfold stringInSlice
    by_cases h : v = s
    · simp [h]
    · have h2 : ¬ s = v := fun e => h e.symm
      simp [h, h2, ih]

theorem mem_initLicenses_iff (x : String) : x ∈ initLicenses ↔ x ∈ licenseCodes := by
  simp only [initLicenses, licenseCodes, supportedLicenses, List.map, List.mem_cons,
    List.mem_singleton, List.not_mem_nil, or_false]
  tauto

theorem getConfig_defaultLicense (cfg : Configuration) :
    getConfig cfg "defaultLicense" = some cfg.DefaultLicense := rfl

theorem getConfig_defaultLang (cfg : Configuration) :
    getConfig cfg "defaultLang" = some cfg.DefaultLang := rfl

theorem initAction_eq (t : CaseTables) (cfg : Configuration) (name lang licenseFlag : String) :
    initAction t cfg name lang licenseFlag =
      if checkForCorrectConfig cfg = false then Outcome.notConfigured
      else if stringInSlice (resolvedLicense t cfg licenseFlag) initLicenses = false then
        Outcome.invalidLicense (resolvedLicense t cfg licenseFlag)
      else if wrongProjectName name = true then Outcome.invalidName name
      else dispatch ⟨name, resolvedLicense t cfg licenseFlag, resolvedLang t cfg lang⟩ := by
  unfold initAction resolvedLicense resolvedLang dispatch
  by_cases h1 : ToUpper t licenseFlag = "DEFAULT" <;>
    by_cases h2 : ToLower t lang = "default" <;>
    simp only [h1, h2, if_true, if_false, getConfig_defaultLicense, getConfig_defaultLang]

theorem dispatch_scaffold_iff (init : Initializer) :
    (∃ r i, dispatch init = Outcome.scaffold r i) ↔ init.lang ∈ supportedLangs := by
  unfold dispatch
  simp only [supportedLangs, List.mem_cons, List.mem_singleton, List.not_mem_nil, or_false]
  split_ifs <;> simp_all

theorem dispatch_scaffold (init : Initializer) (r : Routine) (i : Initializer)
    (h : dispatch init = Outcome.scaffold r i) : r.language = init.lang ∧ i = init := by
  unfold dispatch at h
  split_ifs at h with h1 h2 h3 h4 h5 h6 h7
  all_goals
    injection h with hr hi; subst hr; subst hi
    exact ⟨by simp only [Routine.language, *], rfl⟩

theorem dispatch_unsupported (init : Initializer) (h : init.lang ∉ supportedLangs) :
    dispatch init = Outcome.unsupportedLanguage init.lang := by
  unfold dispatch
  simp only [supportedLangs, List.mem_cons, List.mem_singleton, List.not_mem_nil, or_false,
    not_or] at h
  simp [h]

theorem initAction_scaffold_spec (t : CaseTables) (cfg : Configuration) (name lang licenseFlag : String) :
    ((∃ r i, initAction t cfg name lang licenseFlag = Outcome.scaffold r i) ↔
      (checkForCorrectConfig cfg = true ∧ resolvedLicense t cfg licenseFlag ∈ licenseCodes ∧
        wrongProjectName name = false ∧ resolvedLang t cfg lang ∈ supportedLangs)) ∧
    (∀ r i, initAction t cfg name lang licenseFlag = Outcome.scaffold r i →
      r.language = resolvedLang t cfg lang ∧
        i = ⟨name, resolvedLicense t cfg licenseFlag, resolvedLang t cfg lang⟩) ∧
    (checkForCorrectConfig cfg = true → resolvedLicense t cfg licenseFlag ∈ licenseCodes →
      wrongProjectName name = false → resolvedLang t cfg lang ∉ supportedLangs →
      initAction t cfg name lang licenseFlag =
        Outcome.unsupportedLanguage (resolvedLang t cfg lang)) := by
  rw [initAction_eq]
  refine ⟨?_, ?_, ?_⟩
  · rw [← mem_initLicenses_iff, ← stringInSlice_iff]
    split_ifs with h1 h2 h3
    · simp [h1]
    · simp [h2]
    · simp [h3]
    · rw [dispatch_scaffold_iff]
      simp only [Bool.not_eq_false] at h1 h2
      simp only [Bool.not_eq_true] at h3
      simp [h1, h2, h3]
  · intro r i h
    split_ifs at h with h1 h2 h3
    exact dispatch_scaffold _ r i h
  · intro h1 h2 h3 h4
    rw [← mem_initLicenses_iff, ← stringInSlice_iff] at h2
    simp only [h1, h2, h3]
    exact dispatch_unsupported ⟨name, _, _⟩ h4


/-- C4: the `init` action calls a scaffolding routine iff the configuration is
set, the resolved license is in the license set, `wrongProjectName` is false
on the name and the resolved language is in `supportedLangs`; the routine it
calls is then the one for the resolved language, on the initializer of the
name, the resolved license and the resolved language; and when the first
three conditions hold and the resolved language is outside `supportedLangs`,
the outcome is the unsupported-language error. -/
theorem init_scaffolds_iff (t : CaseTables) (cfg : Configuration) (name lang licenseFlag : String) :
    ((∃ r i, initAction t cfg name lang licenseFlag = Outcome.scaffold r i) ↔
      (checkForCorrectConfig cfg = true ∧ resolvedLicense t cfg licenseFlag ∈ licenseCodes ∧
        wrongProjectName name = false ∧ resolvedLang t cfg lang ∈ supportedLangs)) ∧
    (∀ r i, initAction t cfg name lang licenseFlag = Outcome.scaffold r i →
      r.language = resolvedLang t cfg lang ∧
        i = ⟨name, resolvedLicense t cfg licenseFlag, resolvedLang t cfg lang⟩) ∧
    (checkForCorrectConfig cfg = true → resolvedLicense t cfg licenseFlag ∈ licenseCodes →
      wrongProjectName name = false → resolvedLang t cfg lang ∉ supportedLangs →
      initAction t cfg name lang licenseFlag =
        Outcome.unsupportedLanguage (resolvedLang t cfg lang)) :=
  initAction_scaffold_spec t cfg name lang licenseFlag

/-- Witness of C4: `init` on `my-app`, `rust`, `MIT` ends in the unsupported-language error. -/
theorem init_scaffolds_iff_witness :
    initAction asciiTables ⟨"Ada", "ada", "go", "MIT"⟩ "my-app" "rust" "MIT" =
      Outcome.unsupportedLanguage "rust" :=
  (init_scaffolds_iff asciiTables ⟨"Ada", "ada", "go", "MIT"⟩ "my-app" "rust" "MIT").2.2
    (by decide) (by decide) (by decide) (by decide)

theorem toUpperRune_variant (t : CaseTables) (a b : Char) (hb : 65 ≤ b.toNat ∧ b.toNat ≤ 90)
    (h : a = b ∨ a.toNat = b.toNat + 32) : toUpperRune t a = b := by
  unfold toUpperRune
  rcases h with rfl | h
  · have h1 : a.toNat ≤ 127 := by omega
    have h2 : ¬ (97 ≤ a.toNat ∧ a.toNat ≤ 122) := by omega
    simp [h1, h2]
  · have h1 : a.toNat ≤ 127 := by omega
    have h2 : 97 ≤ a.toNat ∧ a.toNat ≤ 122 := by omega
    have h3 : a.toNat - 32 = b.toNat := by omega
    simp [h1, h2, h3]

theorem map_toUpperRune_variant (t : CaseTables) :
    ∀ (s m : List Char), (∀ b ∈ m, 65 ≤ b.toNat ∧ b.toNat ≤ 90) → caseVariant s m = true →
      s.map (toUpperRune t) = m
  | [], [], _, _ => rfl
  | [], _ :: _, _, h => by simp [caseVariant] at h
  | _ :: _, [], _, h => by simp [caseVariant] at h
  | a :: s, b :: m, hm, h => by
    simp only [caseVariant, Bool.and_eq_true, Bool.or_eq_true, decide_eq_true_eq] at h
    have hb := hm b (List.mem_cons_self b m)
    have hrest := map_toUpperRune_variant t s m (fun c hc => hm c (List.mem_cons_of_mem b hc)) h.2
    simp [List.map, toUpperRune_variant t a b hb h.1, hrest]

theorem licenseCodes_upper : ∀ m ∈ licenseCodes, ∀ b ∈ m.data, 65 ≤ b.toNat ∧ b.toNat ≤ 90 := by
  decide

theorem ToUpper_variant (t : CaseTables) (s m : String) (hm : m ∈ licenseCodes)
    (h : caseVariant s.data m.data = true) : ToUpper t s = m := by
  unfold ToUpper
  rw [map_toUpperRune_variant t s.data m.data (licenseCodes_upper m hm) h]

theorem passedLicense_iff (t : CaseTables) (cfg : Configuration) (name lang licenseFlag : String)
    (hcfg : checkForCorrectConfig cfg = true) :
    (initAction t cfg name lang licenseFlag).passedLicense = true ↔
      resolvedLicense t cfg licenseFlag ∈ licenseCodes := by
  rw [initAction_eq, ← mem_initLicenses_iff, ← stringInSlice_iff]
  rw [if_neg (by simp [hcfg])]
  by_cases h2 : stringInSlice (resolvedLicense t cfg licenseFlag) initLicenses = false
  · simp [h2, Outcome.passedLicense]
  · rw [if_neg h2]
    simp only [Bool.not_eq_false] at h2
    simp only [h2, iff_true]
    by_cases h3 : wrongProjectName name = true
    · simp [h3, Outcome.passedLicense]
    · rw [if_neg h3]
      unfold dispatch
      split_ifs <;> rfl

theorem invalidLicense_of_not_mem (t : CaseTables) (cfg : Configuration)
    (name lang licenseFlag : String) (hcfg : checkForCorrectConfig cfg = true)
    (h : resolvedLicense t cfg licenseFlag ∉ licenseCodes) :
    initAction t cfg name lang licenseFlag =
      Outcome.invalidLicense (resolvedLicense t cfg licenseFlag) := by
  rw [initAction_eq]
  rw [← mem_initLicenses_iff, ← stringInSlice_iff, Bool.not_eq_true] at h
  simp [hcfg, h]

theorem resolvedLicense_flag (t : CaseTables) (cfg : Configuration) (s : String)
    (hs : ToUpper t s ≠ "DEFAULT") : resolvedLicense t cfg s = ToUpper t s := by
  simp [resolvedLicense, hs]

theorem ToUpper_default (t : CaseTables) : ToUpper t "default" = "DEFAULT" := rfl

theorem ToLower_default (t : CaseTables) : ToLower t "default" = "default" := rfl

/-- C3 (counterexample): the flag value `Default` is not the sentinel
`default`, its upper-case form `DEFAULT` is not a license code, and the
license check accepts it all the same: the action compares the upper-cased
flag with `DEFAULT` and then validates the stored default, here `MIT`. -/
theorem license_check_sentinel_any_case :
    "Default" ≠ "default" ∧
      initAction asciiTables ⟨"Ada", "ada", "go", "MIT"⟩ "app" "go" "Default" =
        Outcome.scaffold Routine.goInit ⟨"app", "MIT", "go"⟩ ∧
      (initAction asciiTables ⟨"Ada", "ada", "go", "MIT"⟩ "app" "go" "Default").passedLicense = true ∧
      ToUpper asciiTables "Default" ∉ licenseCodes := by
  decide

/-- C3 (amended): for every license flag value whose upper-case form is not
`DEFAULT`, with the configuration set, the license check accepts the value
iff its upper-case form is one of the license codes; the slice the action
checks against has exactly the keys of `supportedLicenses`; every variant of a
code in the case of its letters is accepted; and a value whose upper-case
form is not a code ends in the invalid-license error, which prints that
upper-case form. -/
theorem license_check_iff (t : CaseTables) (cfg : Configuration) (name lang s : String)
    (hcfg : checkForCorrectConfig cfg = true) (hs : ToUpper t s ≠ "DEFAULT") :
    ((initAction t cfg name lang s).passedLicense = true ↔ ToUpper t s ∈ licenseCodes) ∧
    (∀ x, x ∈ initLicenses ↔ x ∈ licenseCodes) ∧
    (∀ m ∈ licenseCodes, caseVariant s.data m.data = true →
      (initAction t cfg name lang s).passedLicense = true) ∧
    (ToUpper t s ∉ licenseCodes →
      initAction t cfg name lang s = Outcome.invalidLicense (ToUpper t s)) := by
  have hr := resolvedLicense_flag t cfg s hs
  refine ⟨?_, mem_initLicenses_iff, ?_, ?_⟩
  · rw [passedLicense_iff t cfg name lang s hcfg, hr]
  · intro m hm hv
    rw [passedLicense_iff t cfg name lang s hcfg, hr, ToUpper_variant t s m hm hv]
    exact hm
  · intro h
    rw [← hr] at h ⊢
    exact invalidLicense_of_not_mem t cfg name lang s hcfg h

/-- Witness of C3: `mIt` is accepted and `wtfpl` is rejected as `WTFPL`. -/
theorem license_check_iff_witness :
    (initAction asciiTables ⟨"Ada", "ada", "go", "GPL"⟩ "app" "go" "mIt").passedLicense = true ∧
      initAction asciiTables ⟨"Ada", "ada", "go", "GPL"⟩ "app" "go" "wtfpl" =
        Outcome.invalidLicense "WTFPL" :=
  ⟨(license_check_iff asciiTables ⟨"Ada", "ada", "go", "GPL"⟩ "app" "go" "mIt"
      (by decide) (by decide)).2.2.1 "MIT" (by decide) (by decide),
   (license_check_iff asciiTables ⟨"Ada", "ada", "go", "GPL"⟩ "app" "go" "wtfpl"
      (by decide) (by decide)).2.2.2 (by decide)⟩

/-- C5 (counterexample): with the stored default license `mit`, whose
upper-case form is a license code, `init` with the sentinel `default` ends in
the invalid-license error for `mit`: the stored value is not upper-cased. -/
theorem default_license_not_upper_cased :
    ToUpper asciiTables "mit" ∈ licenseCodes ∧
      initAction asciiTables ⟨"Ada", "ada", "go", "mit"⟩ "app" "go" "default" =
        Outcome.invalidLicense "mit" := by
  decide

/-- C5 (amended): when `init` is called with the license sentinel `default`
(configuration set, valid name), the stored default license is taken as it is
stored: the license step passes iff the stored value itself is a license
code, the initializer handed to a routine carries the stored value, a stored
value that is not a code ends in the invalid-license error, and a stored code
with a supported language reaches a routine. -/
theorem default_license_as_stored (t : CaseTables) (cfg : Configuration) (name lang : String)
    (hcfg : checkForCorrectConfig cfg = true) (hname : wrongProjectName name = false) :
    ((initAction t cfg name lang "default").passedLicense = true ↔
      cfg.DefaultLicense ∈ licenseCodes) ∧
    (∀ r i, initAction t cfg name lang "default" = Outcome.scaffold r i →
      i.license = cfg.DefaultLicense) ∧
    (cfg.DefaultLicense ∉ licenseCodes →
      initAction t cfg name lang "default" = Outcome.invalidLicense cfg.DefaultLicense) ∧
    (cfg.DefaultLicense ∈ licenseCodes → resolvedLang t cfg lang ∈ supportedLangs →
      ∃ r, initAction t cfg name lang "default" =
        Outcome.scaffold r ⟨name, cfg.DefaultLicense, resolvedLang t cfg lang⟩) := by
  have hr : resolvedLicense t cfg "default" = cfg.DefaultLicense := by
    simp [resolvedLicense, ToUpper_default]
  refine ⟨?_, ?_, ?_, ?_⟩
  · rw [passedLicense_iff t cfg name lang "default" hcfg, hr]
  · intro r i h
    rw [((initAction_scaffold_spec t cfg name lang "default").2.1 r i h).2, hr]
  · intro h
    rw [← hr] at h ⊢
    exact invalidLicense_of_not_mem t cfg name lang "default" hcfg h
  · intro h1 h2
    have h3 := (initAction_scaffold_spec t cfg name lang "default").1.mpr
      ⟨hcfg, by rw [hr]; exact h1, hname, h2⟩
    obtain ⟨r, i, h⟩ := h3
    refine ⟨r, ?_⟩
    rw [h, ((initAction_scaffold_spec t cfg name lang "default").2.1 r i h).2, hr]

/-- Witness of C5: the stored default `MIT` reaches a routine with the license `MIT`. -/
theorem default_license_as_stored_witness :
    ∃ r, initAction asciiTables ⟨"Ada", "ada", "go", "MIT"⟩ "app" "go" "default" =
      Outcome.scaffold r ⟨"app", "MIT", "go"⟩ :=
  (default_license_as_stored asciiTables ⟨"Ada", "ada", "go", "MIT"⟩ "app" "go"
    (by decide) (by decide)).2.2.2 (by decide) (by decide)

theorem initAction_past_checks (t : CaseTables) (cfg : Configuration) (name lang s : String)
    (hcfg : checkForCorrectConfig cfg = true) (hlic : resolvedLicense t cfg s ∈ licenseCodes)
    (hname : wrongProjectName name = false) :
    initAction t cfg name lang s =
      dispatch ⟨name, resolvedLicense t cfg s, resolvedLang t cfg lang⟩ := by
  rw [initAction_eq]
  rw [← mem_initLicenses_iff, ← stringInSlice_iff] at hlic
  simp [hcfg, hlic, hname]

theorem resolvedLang_default (t : CaseTables) (cfg : Configuration) :
    resolvedLang t cfg "default" = cfg.DefaultLang := by
  simp [resolvedLang, ToLower_default]

theorem resolvedLang_Python (t : CaseTables) (cfg : Configuration) :
    resolvedLang t cfg "Python" = "python" := rfl

theorem resolvedLang_GO (t : CaseTables) (cfg : Configuration) :
    resolvedLang t cfg "GO" = "go" := rfl

/-- C6 (counterexample): with the stored default language `Python` (or `GO`),
`init` with the language omitted ends in the unsupported-language error,
while the explicit argument `Python` (or `GO`) selects the python (or go)
routine: the stored value is not lower-cased. -/
theorem default_lang_not_lower_cased :
    initCommand asciiTables ⟨"Ada", "ada", "Python", "MIT"⟩ "app" none (some "MIT") =
        Outcome.unsupportedLanguage "Python" ∧
      initCommand asciiTables ⟨"Ada", "ada", "Python", "MIT"⟩ "app" (some "Python") (some "MIT") =
        Outcome.scaffold Routine.pythonInit ⟨"app", "MIT", "python"⟩ ∧
      initCommand asciiTables ⟨"Ada", "ada", "GO", "MIT"⟩ "app" none (some "MIT") =
        Outcome.unsupportedLanguage "GO" ∧
      initCommand asciiTables ⟨"Ada", "ada", "GO", "MIT"⟩ "app" (some "GO") (some "MIT") =
        Outcome.scaffold Routine.goInit ⟨"app", "MIT", "go"⟩ := by
  decide

theorem valueOrDefault_none (declared : String) : valueOrDefault none declared = declared :=
  rfl

theorem valueOrDefault_empty (declared : String) :
    valueOrDefault (some "") declared = declared := rfl

theorem valueOrDefault_Python : valueOrDefault (some "Python") "default" = "Python" := rfl

theorem valueOrDefault_GO : valueOrDefault (some "GO") "default" = "GO" := rfl

/-- C6 (amended): when `init` is called with the language omitted
(configuration set, license accepted, valid name), the language used for the
dispatch is the stored default language as it is stored: a routine that runs
is the one for the stored value, a stored value in `supportedLangs` reaches
its routine, a stored value outside ends in the unsupported-language error,
and the stored values `python` and `go` give the same outcome as the explicit
arguments `Python` and `GO`. -/
theorem default_lang_as_stored (t : CaseTables) (cfg : Configuration) (name : String)
    (license : Option String) (hcfg : checkForCorrectConfig cfg = true)
    (hlic : resolvedLicense t cfg (valueOrDefault license "default") ∈ licenseCodes)
    (hname : wrongProjectName name = false) :
    (∀ r i, initCommand t cfg name none license = Outcome.scaffold r i →
      r.language = cfg.DefaultLang ∧ i.lang = cfg.DefaultLang) ∧
    (cfg.DefaultLang ∈ supportedLangs →
      ∃ r, r.language = cfg.DefaultLang ∧ initCommand t cfg name none license =
        Outcome.scaffold r ⟨name, resolvedLicense t cfg (valueOrDefault license "default"), cfg.DefaultLang⟩) ∧
    (cfg.DefaultLang ∉ supportedLangs →
      initCommand t cfg name none license = Outcome.unsupportedLanguage cfg.DefaultLang) ∧
    (cfg.DefaultLang = "python" →
      initCommand t cfg name none license = initCommand t cfg name (some "Python") license) ∧
    (cfg.DefaultLang = "go" →
      initCommand t cfg name none license = initCommand t cfg name (some "GO") license) := by
  have h0 : initCommand t cfg name none license =
      dispatch ⟨name, resolvedLicense t cfg (valueOrDefault license "default"), cfg.DefaultLang⟩ := by
    unfold initCommand
    rw [valueOrDefault_none, initAction_past_checks t cfg name "default" _ hcfg hlic hname,
      resolvedLang_default]
  have h1 : ∀ r i, initCommand t cfg name none license = Outcome.scaffold r i →
      r.language = cfg.DefaultLang ∧ i.lang = cfg.DefaultLang := by
    intro r i h
    rw [h0] at h
    have h2 := dispatch_scaffold _ r i h
    exact ⟨h2.1, by rw [h2.2]⟩
  refine ⟨h1, ?_, ?_, ?_, ?_⟩
  · intro hmem
    obtain ⟨r, i, h⟩ := (dispatch_scaffold_iff
      ⟨name, resolvedLicense t cfg (valueOrDefault license "default"), cfg.DefaultLang⟩).mpr hmem
    have h2 := dispatch_scaffold _ r i h
    exact ⟨r, h2.1, by rw [h0, h, h2.2]⟩
  · intro hmem
    rw [h0]
    exact dispatch_unsupported ⟨name, _, cfg.DefaultLang⟩ hmem
  · intro hpy
    rw [h0]
    unfold initCommand
    rw [valueOrDefault_Python, initAction_past_checks t cfg name "Python" _ hcfg hlic hname,
      resolvedLang_Python, hpy]
  · intro hgo
    rw [h0]
    unfold initCommand
    rw [valueOrDefault_GO, initAction_past_checks t cfg name "GO" _ hcfg hlic hname,
      resolvedLang_GO, hgo]

/-- Witness of C6: the stored default `python` does what the argument `Python` does. -/
theorem default_lang_as_stored_witness :
    initCommand asciiTables ⟨"Ada", "ada", "python", "MIT"⟩ "app" none none =
      initCommand asciiTables ⟨"Ada", "ada", "python", "MIT"⟩ "app" (some "Python") none :=
  (default_lang_as_stored asciiTables ⟨"Ada", "ada", "python", "MIT"⟩ "app" none
    (by decide) (by decide) (by decide)).2.2.2.1 (by decide)

/-- C8 (the code at the failing input): `wrongProjectName` is false on
`bad/name`, and `init` on the name `bad/name` with the language `go` and the
license `MIT`, the configuration set, calls the go routine instead of ending
in the invalid-name error; names with a backslash, a semicolon or `<`, which
the error message lists as well, are not rejected either. -/
theorem init_accepts_slash :
    wrongProjectName "bad/name" = false ∧
      initCommand asciiTables ⟨"Ada", "ada", "python", "MIT"⟩ "bad/name" (some "go") (some "MIT") =
        Outcome.scaffold Routine.goInit ⟨"bad/name", "MIT", "go"⟩ ∧
      wrongProjectName "a\\b" = false ∧ wrongProjectName "a;b" = false ∧
      wrongProjectName "a<b" = false := by
  decide

theorem char_eq_iff_toNat (a b : Char) : a = b ↔ a.toNat = b.toNat := by
  constructor
  · intro h; rw [h]
  · intro h
    rw [← Char.ofNat_toNat a, ← Char.ofNat_toNat b, h]

theorem hexValue_hexDigit (k : Nat) (hk : k < 16) : hexValue (hexDigit k) = some k := by
  interval_cases k <;> rfl

theorem getu4_low (n : Nat) (hn : n < 256) :
    getu4 '0' '0' (hexDigit (n / 16)) (hexDigit (n % 16)) = some n := by
  have h1 : hexValue '0' = some 0 := rfl
  have h2 := hexValue_hexDigit (n / 16) (by omega)
  have h3 := hexValue_hexDigit (n % 16) (by omega)
  unfold getu4
  rw [h1, h2, h3]
  simp only [Option.some.injEq]
  omega

theorem parseString_quote (pending : Option Nat) (rest : List Char) :
    parseString pending ('"' :: rest) = some (flushPending pending, rest) := by
  rw [parseString.eq_def]; rfl

theorem parseString_plain (c : Char) (rest : List Char) (h1 : c ≠ '"') (h2 : c ≠ '\\')
    (h3 : 32 ≤ c.toNat) :
    parseString none (c :: rest) = (parseString none rest).map (prepend [c]) := by
  have h4 : ¬ c.toNat < 32 := by omega
  rw [parseString.eq_def]
  simp [h1, h2, h4, flushPending]

theorem parseString_escape (e r : Char) (rest : List Char) (h1 : e ≠ 'u')
    (h2 : unescape e = some r) :
    parseString none ('\\' :: e :: rest) = (parseString none rest).map (prepend [r]) := by
  rw [parseString.eq_def]
  simp [h1, h2, flushPending]

theorem parseString_unicode (h1 h2 h3 h4 : Char) (n : Nat) (rest : List Char)
    (hg : getu4 h1 h2 h3 h4 = some n) (hn : n < 55296) :
    parseString none ('\\' :: 'u' :: h1 :: h2 :: h3 :: h4 :: rest) =
      (parseString none rest).map (prepend [Char.ofNat n]) := by
  have hn1 : ¬ (55296 ≤ n ∧ n < 56320) := by omega
  have hn2 : ¬ (56320 ≤ n ∧ n < 57344) := by omega
  rw [parseString.eq_def]
  simp [hg, hn1, hn2, flushPending]

theorem parseString_encodeRune (c : Char) (rest : List Char) :
    parseString none (encodeRune c ++ rest) = (parseString none rest).map (prepend [c]) := by
  unfold encodeRune
  split_ifs with h1 h2 h3 h4 h5 h6 h7
  · simp only [htmlSafe, Bool.and_eq_true, decide_eq_true_eq, Bool.not_eq_true', Bool.or_eq_false_iff,
      decide_eq_false_iff_not] at h2
    exact parseString_plain c rest h2.2.1.1.1.1 h2.2.2 h2.1.1
  · rcases h3 with rfl | rfl
    · exact parseString_escape '\\' '\\' rest (by decide) rfl
    · exact parseString_escape '"' '"' rest (by decide) rfl
  · subst h4; exact parseString_escape 'n' '\n' rest (by decide) rfl
  · subst h5; exact parseString_escape 'r' '\r' rest (by decide) rfl
  · subst h6; exact parseString_escape 't' '\t' rest (by decide) rfl
  · have hg := getu4_low c.toNat (by omega)
    have := parseString_unicode _ _ _ _ _ rest hg (by omega)
    rw [Char.ofNat_toNat] at this
    exact this
  · have hg : getu4 '2' '0' '2' (hexDigit (c.toNat % 16)) = some c.toNat := by
      rcases h7 with h | h <;> rw [h] <;> rfl
    have := parseString_unicode _ _ _ _ _ rest hg (by omega)
    rw [Char.ofNat_toNat] at this
    exact this
  · have h8 : c ≠ '"' := by
      intro h; rw [h] at h1; exact h1 (by decide)
    have h9 : c ≠ '\\' := by
      intro h; rw [h] at h1; exact h1 (by decide)
    exact parseString_plain c rest h8 h9 (by omega)

theorem parseString_encoded (s : List Char) (tail : List Char) :
    parseString none (s.flatMap encodeRune ++ '"' :: tail) = some (s, tail) := by
  induction s with
  | nil => simp [parseString_quote, flushPending]
  | cons c s ih =>
    rw [List.flatMap_cons, List.append_assoc, parseString_encodeRune, ih]
    rfl

theorem parseString_encodeString (s : String) (tail : List Char) :
    parseString none ((encodeString s).tail ++ tail) = some (s.data, tail) := by
  unfold encodeString
  simp only [List.tail_cons, List.append_assoc, List.singleton_append]
  exact parseString_encoded s.data tail

theorem parseString_key (key tail : List Char)
    (h : ∀ c ∈ key, c ≠ '"' ∧ c ≠ '\\' ∧ 32 ≤ c.toNat) :
    parseString none (key ++ '"' :: tail) = some (key, tail) := by
  induction key with
  | nil => simp [parseString_quote, flushPending]
  | cons c key ih =>
    have hc := h c (List.mem_cons_self c key)
    rw [List.cons_append, parseString_plain c _ hc.1 hc.2.1 hc.2.2,
      ih (fun d hd => h d (List.mem_cons_of_mem c hd))]
    rfl

theorem fieldNames_plain :
    ∀ name ∈ fieldNames, ∀ c ∈ name.data, c ≠ '"' ∧ c ≠ '\\' ∧ 32 ≤ c.toNat := by
  decide

theorem skipSpace_quote (rest : List Char) : skipSpace ('"' :: rest) = '"' :: rest := by
  simp [skipSpace, isSpace]

theorem decodeValue_string (config : Configuration) (fits : Bool) (key : List Char) (i : Nat)
    (hi : findField key = some i) (v : String) (tail : List Char) :
    decodeValue config fits key (encodeString v ++ tail) =
      some (setField config i v, fits, tail) := by
  have h := parseString_encodeString v tail
  unfold encodeString at h ⊢
  simp only [List.tail_cons] at h
  unfold decodeValue
  rw [hi]
  simp only [List.cons_append, h, Option.map_some']

theorem decodeMembers_next (fuel : Nat) (config : Configuration) (fits : Bool) (name : String)
    (i : Nat) (hname : name ∈ fieldNames) (hi : findField name.data = some i) (v : String)
    (tail : List Char) :
    decodeMembers (fuel + 1) config fits (memberText name v ++ ',' :: tail) =
      decodeMembers fuel (setField config i v) fits tail := by
  unfold memberText
  rw [decodeMembers]
  simp only [List.cons_append, List.append_assoc, skipSpace_quote, if_true,
    parseString_key name.data _ (fieldNames_plain name hname)]
  have h1 : skipSpace (':' :: (encodeString v ++ ',' :: tail)) =
      ':' :: (encodeString v ++ ',' :: tail) := by simp [skipSpace, isSpace]
  have h2 : skipSpace (encodeString v ++ ',' :: tail) = encodeString v ++ ',' :: tail := by
    unfold encodeString; exact skipSpace_quote _
  have h3 : skipSpace (',' :: tail) = ',' :: tail := by simp [skipSpace, isSpace]
  simp only [h1, h2, if_true, decodeValue_string config fits name.data i hi v, h3]

theorem decodeMembers_last (fuel : Nat) (config : Configuration) (fits : Bool) (name : String)
    (i : Nat) (hname : name ∈ fieldNames) (hi : findField name.data = some i) (v : String)
    (tail : List Char) :
    decodeMembers (fuel + 1) config fits (memberText name v ++ '\x7d' :: tail) =
      some (setField config i v, fits, tail) := by
  unfold memberText
  rw [decodeMembers]
  simp only [List.cons_append, List.append_assoc, skipSpace_quote, if_true,
    parseString_key name.data _ (fieldNames_plain name hname)]
  have h1 : skipSpace (':' :: (encodeString v ++ '\x7d' :: tail)) =
      ':' :: (encodeString v ++ '\x7d' :: tail) := by simp [skipSpace, isSpace]
  have h2 : skipSpace (encodeString v ++ '\x7d' :: tail) = encodeString v ++ '\x7d' :: tail := by
    unfold encodeString; exact skipSpace_quote _
  have h3 : skipSpace ('\x7d' :: tail) = '\x7d' :: tail := by simp [skipSpace, isSpace]
  simp only [h1, h2, if_true, decodeValue_string config fits name.data i hi v, h3]
  simp

theorem jsonify_data (c : Configuration) :
    (jsonify c).data = '\x7b' :: (memberText "FullName" c.FullName ++ ',' ::
      (memberText "GithubUsername" c.GithubUsername ++ ',' ::
        (memberText "DefaultLang" c.DefaultLang ++ ',' ::
          (memberText "DefaultLicense" c.DefaultLicense ++ ['\x7d'])))) := by
  simp [jsonify, memberText]

theorem Unmarshal_object (data : String) (rest : List Char) (c : Configuration)
    (h : data.data = '\x7b' :: '"' :: rest) (hlen : 2 ≤ rest.length)
    (hd : ∀ k, decodeMembers (k + 4) ⟨"", "", "", ""⟩ true ('"' :: rest) = some (c, true, [])) :
    Unmarshal data = some (some c) := by
  unfold Unmarshal
  rw [h]
  have h0 : skipSpace ('\x7b' :: '"' :: rest) = '\x7b' :: '"' :: rest := by
    simp [skipSpace, isSpace]
  have h1 : rest.length + 1 + 1 = (rest.length - 2) + 4 := by omega
  rw [h0]
  have hd1 : decodeMembers (rest.length + 1 + 1) ⟨"", "", "", ""⟩ true ('"' :: rest) =
      some (c, true, []) := by rw [h1]; exact hd _
  have h2 : skipSpace [] = [] := rfl
  simp only [skipSpace_quote]
  simp [hd1, h2]

theorem decodeMembers_jsonify (fuel : Nat) (c : Configuration) :
    decodeMembers (fuel + 4) ⟨"", "", "", ""⟩ true
      (memberText "FullName" c.FullName ++ ',' ::
        (memberText "GithubUsername" c.GithubUsername ++ ',' ::
          (memberText "DefaultLang" c.DefaultLang ++ ',' ::
            (memberText "DefaultLicense" c.DefaultLicense ++ ['\x7d'])))) = some (c, true, []) := by
  rw [decodeMembers_next (fuel + 3) _ _ "FullName" 0 (by decide) (by decide),
    decodeMembers_next (fuel + 2) _ _ "GithubUsername" 1 (by decide) (by decide),
    decodeMembers_next (fuel + 1) _ _ "DefaultLang" 2 (by decide) (by decide),
    decodeMembers_last fuel _ _ "DefaultLicense" 3 (by decide) (by decide)]
  rfl

theorem Unmarshal_jsonify (c : Configuration) : Unmarshal (jsonify c) = some (some c) := by
  have hd := jsonify_data c
  have hq : ∀ tail, memberText "FullName" c.FullName ++ tail =
      '"' :: ("FullName".data ++ '"' :: ':' :: encodeString c.FullName ++ tail) := by
    intro tail; simp [memberText]
  rw [hq] at hd
  apply Unmarshal_object (jsonify c) _ c hd
  · have h8 : "FullName".data.length = 8 := rfl
    rw [List.length_append, List.length_append, h8]
    omega
  · intro k
    rw [← hq]
    exact decodeMembers_jsonify k c

theorem readJson_jsonify (c : Configuration) : readJson (jsonify c) = Run.returned (some c) := by
  unfold readJson
  rw [Unmarshal_jsonify]

theorem hexDigit_ne_newline (k : Nat) : hexDigit k ≠ '\n' := by
  by_cases hk : k < 16
  · interval_cases k <;> decide
  · have h : hexDigit k = '0' := by
      unfold hexDigit
      rw [List.getD_eq_default]
      exact Nat.le_of_not_lt hk
    rw [h]; decide

theorem encodeRune_no_newline (c : Char) : ∀ x ∈ encodeRune c, x ≠ '\n' := by
  intro x hx
  unfold encodeRune at hx
  split_ifs at hx with h1 h2 h3 h4 h5 h6 h7
  · simp only [List.mem_singleton] at hx
    subst hx
    intro h; subst h
    exact absurd h2 (by decide)
  · simp only [List.mem_cons, List.mem_singleton, List.not_mem_nil, or_false] at hx
    rcases hx with rfl | rfl
    · decide
    · rcases h3 with h | h <;> rw [h] <;> decide
  · simp only [List.mem_cons, List.mem_singleton, List.not_mem_nil, or_false] at hx
    rcases hx with rfl | rfl <;> decide
  · simp only [List.mem_cons, List.mem_singleton, List.not_mem_nil, or_false] at hx
    rcases hx with rfl | rfl <;> decide
  · simp only [List.mem_cons, List.mem_singleton, List.not_mem_nil, or_false] at hx
    rcases hx with rfl | rfl <;> decide
  · simp only [List.mem_cons, List.mem_singleton, List.not_mem_nil, or_false] at hx
    rcases hx with rfl | rfl | rfl | rfl | rfl | rfl
    · decide
    · decide
    · decide
    · decide
    · exact hexDigit_ne_newline _
    · exact hexDigit_ne_newline _
  · simp only [List.mem_cons, List.mem_singleton, List.not_mem_nil, or_false] at hx
    rcases hx with rfl | rfl | rfl | rfl | rfl | rfl
    · decide
    · decide
    · decide
    · decide
    · decide
    · exact hexDigit_ne_newline _
  · simp only [List.mem_singleton] at hx
    subst hx
    intro h; subst h
    exact h1 (by decide)

theorem encodeString_no_newline (s : String) : ∀ x ∈ encodeString s, x ≠ '\n' := by
  intro x hx
  unfold encodeString at hx
  simp only [List.mem_cons, List.mem_append, List.mem_flatMap, List.mem_singleton,
    List.not_mem_nil, or_false] at hx
  rcases hx with rfl | ⟨c, _, hc⟩ | rfl
  · decide
  · exact encodeRune_no_newline c x hc
  · decide

theorem memberText_no_newline (name v : String) (hname : name ∈ fieldNames) :
    ∀ x ∈ memberText name v, x ≠ '\n' := by
  intro x hx
  unfold memberText at hx
  simp only [List.mem_cons, List.mem_append] at hx
  rcases hx with rfl | h | rfl | rfl | h
  · decide
  · intro hx; subst hx
    revert h; revert name; decide
  · decide
  · decide
  · exact encodeString_no_newline v x h

theorem jsonify_no_newline (c : Configuration) : ∀ x ∈ (jsonify c).data, x ≠ '\n' := by
  intro x hx
  rw [jsonify_data] at hx
  simp only [List.mem_cons, List.mem_append, List.mem_singleton, List.not_mem_nil, or_false] at hx
  rcases hx with rfl | h | rfl | h | rfl | h | rfl | h | rfl
  · decide
  · exact memberText_no_newline _ _ (by decide) x h
  · decide
  · exact memberText_no_newline _ _ (by decide) x h
  · decide
  · exact memberText_no_newline _ _ (by decide) x h
  · decide
  · exact memberText_no_newline _ _ (by decide) x h
  · decide

theorem splitLines_of_no_newline (text : List Char) (h : ∀ x ∈ text, x ≠ '\n') :
    splitLines text = [text] := by
  induction text with
  | nil => rfl
  | cons c rest ih =>
    have hc : c ≠ '\n' := h c (List.mem_cons_self c rest)
    rw [splitLines, if_neg hc, ih (fun x hx => h x (List.mem_cons_of_mem c hx))]

theorem scanLines_short (text : List Char) (h : ∀ x ∈ text, x ≠ '\n') (hne : text ≠ [])
    (hlen : byteLength text < MaxScanTokenSize) : scanLines text = [dropCR text] := by
  unfold scanLines
  rw [splitLines_of_no_newline text h]
  have h1 : ¬ ([text].getLast? = some []) := by
    simp only [List.getLast?_singleton, Option.some.injEq]
    exact hne
  simp [hne, hlen]

theorem scanLines_long (text : List Char) (h : ∀ x ∈ text, x ≠ '\n') (hne : text ≠ [])
    (hlen : MaxScanTokenSize ≤ byteLength text) : scanLines text = [] := by
  unfold scanLines
  rw [splitLines_of_no_newline text h]
  have h1 : ¬ ([text].getLast? = some []) := by
    simp only [List.getLast?_singleton, Option.some.injEq]
    exact hne
  have h2 : ¬ byteLength text < MaxScanTokenSize := Nat.not_lt.mpr hlen
  simp [hne, h2]

theorem jsonify_ne_nil (c : Configuration) : (jsonify c).data ≠ [] := by
  rw [jsonify_data]; exact List.cons_ne_nil _ _

theorem jsonify_getLast (c : Configuration) : (jsonify c).data.getLast? = some '\x7d' := by
  unfold jsonify
  exact List.getLast?_concat _

theorem dropCR_jsonify (c : Configuration) : dropCR (jsonify c).data = (jsonify c).data := by
  unfold dropCR
  rw [jsonify_getLast, if_neg (by decide)]

theorem wholeText_jsonify (c : Configuration)
    (hlen : byteLength (jsonify c).data < MaxScanTokenSize) :
    (⟨(scanLines (jsonify c).data).flatten⟩ : String) = jsonify c := by
  rw [scanLines_short _ (jsonify_no_newline c) (jsonify_ne_nil c) hlen, dropCR_jsonify]
  simp

theorem config_of_readable (fullName githubUsername defaultLang defaultLicense : String)
    (c0 : Configuration) (hlen : byteLength (jsonify c0).data < MaxScanTokenSize) :
    config fullName githubUsername defaultLang defaultLicense (some (jsonify c0)) =
      (Run.returned (), some (jsonify ⟨fullName, githubUsername, defaultLang, defaultLicense⟩)) := by
  unfold config
  simp only [wholeText_jsonify c0 hlen, readJson_jsonify]

theorem default_record_short :
    byteLength (jsonify ⟨"", "", "", "MIT"⟩).data < MaxScanTokenSize := by
  decide

theorem config_of_absent (fullName githubUsername defaultLang defaultLicense : String) :
    config fullName githubUsername defaultLang defaultLicense none =
      (Run.returned (), some (jsonify ⟨fullName, githubUsername, defaultLang, defaultLicense⟩)) := by
  unfold config
  simp only [wholeText_jsonify _ default_record_short, readJson_jsonify]

theorem length_le_byteLength (cs : List Char) : cs.length ≤ byteLength cs := by
  induction cs with
  | nil => simp [byteLength]
  | cons c rest ih =>
    have hc := c.utf8Size_pos
    simp only [byteLength, List.map_cons, List.sum_cons, List.length_cons] at ih ⊢
    omega

theorem encodeRune_length_pos (c : Char) : 1 ≤ (encodeRune c).length := by
  unfold encodeRune
  split_ifs <;> simp

theorem length_le_flatMap_encodeRune (cs : List Char) :
    cs.length ≤ (cs.flatMap encodeRune).length := by
  induction cs with
  | nil => simp
  | cons c rest ih =>
    have hc := encodeRune_length_pos c
    simp only [List.flatMap_cons, List.length_append, List.length_cons]
    omega

theorem fullName_length_le_byteLength (c : Configuration) :
    c.FullName.data.length ≤ byteLength (jsonify c).data := by
  have h1 := length_le_byteLength (jsonify c).data
  have h2 := length_le_flatMap_encodeRune c.FullName.data
  have h3 : (c.FullName.data.flatMap encodeRune).length ≤ (jsonify c).data.length := by
    rw [jsonify_data]
    simp only [memberText, encodeString, List.length_cons, List.length_append]
    omega
  omega

theorem config_of_long (fullName githubUsername defaultLang defaultLicense : String)
    (c0 : Configuration) (hlen : MaxScanTokenSize ≤ c0.FullName.data.length) :
    config fullName githubUsername defaultLang defaultLicense (some (jsonify c0)) =
      (Run.panicked, some (jsonify c0)) := by
  have h1 : MaxScanTokenSize ≤ byteLength (jsonify c0).data :=
    Nat.le_trans hlen (fullName_length_le_byteLength c0)
  have h2 : readJson ⟨([] : List (List Char)).flatten⟩ = Run.panicked := by decide
  unfold config
  simp only [scanLines_long _ (jsonify_no_newline c0) (jsonify_ne_nil c0) h1, h2]

/-- C2 (counterexample): `config` with a full name of 65,536 letters on an
absent file returns and stores the serialized record; on that prior state the
next call of `config` panics and leaves the file as it is, and `readJson` of
the stored content, read back the way `config` reads it, panics: the one line
of the file does not fit the scanner's buffer, so the text read is empty. -/
theorem config_panics_after_long_name :
    config longName "ada" "go" "MIT" none =
        (Run.returned (), some (jsonify ⟨longName, "ada", "go", "MIT"⟩)) ∧
      config "Ada" "ada" "go" "MIT" (some (jsonify ⟨longName, "ada", "go", "MIT"⟩)) =
        (Run.panicked, some (jsonify ⟨longName, "ada", "go", "MIT"⟩)) ∧
      readJson ⟨(scanLines (jsonify ⟨longName, "ada", "go", "MIT"⟩).data).flatten⟩ =
        Run.panicked := by
  have hlen : MaxScanTokenSize ≤ (⟨longName, "ada", "go", "MIT"⟩ : Configuration).FullName.data.length := by
    show 64 * 1024 ≤ (List.replicate 65536 'a').length
    rw [List.length_replicate]
  have h1 : MaxScanTokenSize ≤ byteLength (jsonify ⟨longName, "ada", "go", "MIT"⟩).data :=
    Nat.le_trans hlen (fullName_length_le_byteLength _)
  refine ⟨config_of_absent _ _ _ _, config_of_long _ _ _ _ _ hlen, ?_⟩
  rw [scanLines_long _ (jsonify_no_newline _) (jsonify_ne_nil _) h1]
  decide

/-- C2 (amended): for every prior state of the configuration file that is
absent or holds a serialized record of fewer than `MaxScanTokenSize` bytes,
and for every four strings, `config` returns and leaves the file present with
the content `jsonify` of exactly those four values; and when that content is
itself shorter than `MaxScanTokenSize` bytes, `readJson` of the content read
back the way `config` reads it is the record of those four values. -/
theorem config_replaces_record (fullName githubUsername defaultLang defaultLicense : String)
    (file : Option String)
    (hfile : file = none ∨
      ∃ c0, file = some (jsonify c0) ∧ byteLength (jsonify c0).data < MaxScanTokenSize) :
    config fullName githubUsername defaultLang defaultLicense file =
        (Run.returned (), some (jsonify ⟨fullName, githubUsername, defaultLang, defaultLicense⟩)) ∧
      (byteLength (jsonify ⟨fullName, githubUsername, defaultLang, defaultLicense⟩).data <
          MaxScanTokenSize →
        readJson ⟨(scanLines
            (jsonify ⟨fullName, githubUsername, defaultLang, defaultLicense⟩).data).flatten⟩ =
          Run.returned (some ⟨fullName, githubUsername, defaultLang, defaultLicense⟩)) := by
  constructor
  · rcases hfile with rfl | ⟨c0, rfl, hlen⟩
    · exact config_of_absent _ _ _ _
    · exact config_of_readable _ _ _ _ c0 hlen
  · intro hlen
    rw [wholeText_jsonify _ hlen, readJson_jsonify]

/-- Witness of C2: a stored record is replaced and the new one reads back. -/
theorem config_replaces_record_witness :
    config "Ada \"L\"" "ada" "c++" "MIT" (some (jsonify ⟨"Old\nName", "old", "go", "GPL"⟩)) =
        (Run.returned (), some (jsonify ⟨"Ada \"L\"", "ada", "c++", "MIT"⟩)) ∧
      readJson ⟨(scanLines (jsonify ⟨"Ada \"L\"", "ada", "c++", "MIT"⟩).data).flatten⟩ =
        Run.returned (some ⟨"Ada \"L\"", "ada", "c++", "MIT"⟩) :=
  ⟨(config_replaces_record "Ada \"L\"" "ada" "c++" "MIT"
      (some (jsonify ⟨"Old\nName", "old", "go", "GPL"⟩))
      (Or.inr ⟨⟨"Old\nName", "old", "go", "GPL"⟩, rfl, by decide⟩)).1,
   (config_replaces_record "Ada \"L\"" "ada" "c++" "MIT"
      (some (jsonify ⟨"Old\nName", "old", "go", "GPL"⟩))
      (Or.inr ⟨⟨"Old\nName", "old", "go", "GPL"⟩, rfl, by decide⟩)).2 (by decide)⟩

/-- C7 (counterexample): the content with a line break inside the string
`Ada Lovelace` does not deserialize (`readJson` of the content panics), yet
`config` on that file returns and rewrites it: the scanner drops the line
break, and the text `config` reads is a valid object. -/
theorem config_accepts_broken_line :
    readJson "\x7b\"FullName\":\"Ada\nLovelace\"\x7d" = Run.panicked ∧
      config "Ada" "ada" "go" "MIT" (some "\x7b\"FullName\":\"Ada\nLovelace\"\x7d") =
        (Run.returned (), some (jsonify ⟨"Ada", "ada", "go", "MIT"⟩)) := by
  decide

/-- C7 (amended): for every existing configuration file whose content, read
the way `config` reads it (the scanner's lines concatenated), does not
deserialize (`readJson` panics on that text), `config` with any arguments
panics and the file is left exactly as it was. -/
theorem config_panics_on_unreadable (fullName githubUsername defaultLang defaultLicense : String)
    (content : String)
    (h : readJson ⟨(scanLines content.data).flatten⟩ = Run.panicked) :
    config fullName githubUsername defaultLang defaultLicense (some content) =
      (Run.panicked, some content) := by
  unfold config
  simp only [h]

/-- Witness of C7: a file that is not JSON makes `config` panic and stays as it was. -/
theorem config_panics_on_unreadable_witness :
    config "Ada" "ada" "go" "MIT" (some "FullName = Ada\nDefaultLang = go\n") =
      (Run.panicked, some "FullName = Ada\nDefaultLang = go\n") :=
  config_panics_on_unreadable "Ada" "ada" "go" "MIT" "FullName = Ada\nDefaultLang = go\n"
    (by decide)

end Hydra
